import Mathlib

set_option linter.unusedVariables false

/-!
Shallow embedding of the build-context resolver in
src/cargo/ops/cargo_rustc/context/mod.rs.

Rust strings are modelled as Lean String values, with the string
operations the source uses (split, trim, contains, lines, to_lowercase)
re-implemented structurally on the underlying character lists so that
every definition evaluates by kernel reduction.  Machinery that lives
outside the embedded file (the configuration store, the process
environment, the external rustc binary, and the cfg-expression matcher
of util::Cfg) is modelled as explicit function-valued inputs, so each
embedded function is a pure function of all of its inputs.
-/

/-- Structural splitter on character lists: fuel-indexed version of the
Rust str::split with a literal separator.  The fuel is always called
with the length of the input, which is sufficient because every step
consumes at least one character. -/
def splitChars (sep : List Char) : Nat → List Char → List Char → List (List Char)
  | _, [], acc => [acc.reverse]
  | 0, _, acc => [acc.reverse]
  | n + 1, c :: rest, acc =>
    if sep.isPrefixOf (c :: rest) then
      acc.reverse :: splitChars sep n (List.drop sep.length (c :: rest)) []
    else
      splitChars sep n rest (c :: acc)

/-- Rust str::split with a literal separator (also the behaviour of the
single-character split used for RUSTFLAGS values). -/
def rsplit (sep s : String) : List String :=
  (splitChars sep.data s.data.length s.data []).map (fun l => ⟨l⟩)

/-- Rust str::trim, restricted to the ASCII whitespace characters that
Char.isWhitespace recognises. -/
def rtrim (s : String) : String :=
  ⟨((s.data.dropWhile Char.isWhitespace).reverse.dropWhile Char.isWhitespace).reverse⟩

/-- Rust char-wise to_lowercase, for the ASCII names this module feeds
through it (RUSTFLAGS, RUSTDOCFLAGS). -/
def rlower (s : String) : String :=
  ⟨s.data.map Char.toLower⟩

/-- Rust str::starts_with for a literal pattern. -/
def rstarts (pat s : String) : Bool :=
  pat.data.isPrefixOf s.data

/-- Rust str::ends_with for a literal pattern. -/
def rends (pat s : String) : Bool :=
  pat.data.reverse.isPrefixOf s.data.reverse

/-- Rust str::contains for a literal pattern: substring containment. -/
def str_contains (hay sub : String) : Bool :=
  hay.data.tails.any (fun t => sub.data.isPrefixOf t)

/-- Rust str::lines: split on a newline, drop a final empty piece
coming from a trailing newline, and strip a trailing carriage return
from every line. -/
def rust_lines (s : String) : List String :=
  let ls := rsplit "\n" s
  let ls := if ls.getLast? = some "" then ls.dropLast else ls
  ls.map (fun l => if rends "\r" l then ⟨l.data.dropLast⟩ else l)

/-- Byte-lexicographic comparison of strings as Rust Ord on String
performs it (on valid UTF-8, code-point order and byte order agree). -/
def charListLe : List Char → List Char → Bool
  | [], _ => true
  | _ :: _, [] => false
  | a :: as, b :: bs => if a < b then true else if b < a then false else charListLe as bs

/-- The order used to model Vec::sort on Vec of String. -/
def str_le (a b : String) : Prop := charListLe a.data b.data = true

instance : DecidableRel str_le := fun a b =>
  inferInstanceAs (Decidable (charListLe a.data b.data = true))

/-- Whether a compilation unit is for the host or target architecture
(enum Kind of cargo_rustc). -/
inductive Kind where
  | Host
  | Target
deriving DecidableEq

/-- The fields of core Target that this module consults: for_host marks
build scripts, procedural macros and compiler plugins. -/
structure RTarget where
  name : String
  for_host : Bool
deriving DecidableEq

/-- Source location of a package; is_path is true exactly for locally
editable path sources as reported by SourceId::is_path. -/
structure SourceId where
  is_path : Bool
deriving DecidableEq

/-- Identity of a package: name plus source location (the version and
remaining PackageId data play no role in the embedded functions). -/
structure PackageId where
  name : String
  source_id : SourceId
deriving DecidableEq

/-- The part of core Package the embedded functions look at. -/
structure Package where
  package_id : PackageId
deriving DecidableEq

/-- The Profile fields consulted here: the incremental default and the
marker for custom-build-script execution units. -/
structure Profile where
  incremental : Bool
  run_custom_build : Bool
deriving DecidableEq

/-- A Unit (named CUnit here because Lean reserves the name Unit): the
node identity of the build graph, the 4-tuple of package, target,
profile and architecture kind. -/
structure CUnit where
  pkg : Package
  target : RTarget
  profile : Profile
  kind : Kind
deriving DecidableEq

/-- The build configuration fields consulted by the embedded functions:
the host triple and the optional explicitly requested target triple. -/
structure BuildConfig where
  host_triple : String
  requested_target : Option String
deriving DecidableEq

/-- Model of the configuration store and process environment.  env
models env::var, lists models Config::get_list_or_split_string, bools
models Config::get_bool, and target_table_keys models the key set of
Config::get_table("target").  Lookups are modelled as total (the
configuration-error paths of the source are out of scope of the
claims). -/
structure Config where
  env : String → Option String
  lists : String → Option (List String)
  bools : String → Option Bool
  target_table_keys : Option (List String)

/-- Compiler-reported facts for one architecture triple (struct
TargetInfo).  A cfg predicate is kept as its raw text; paths are kept
as their component lists, so PathBuf::push is list append. -/
structure TargetInfo where
  crate_type_process : Option (List String)
  crate_types : List (String × Option (String × String))
  cfg : Option (List String)
  sysroot_libdir : Option (List String)
deriving DecidableEq

/-- The default TargetInfo (all information still unknown), as
TargetInfo::default produces it. -/
def TargetInfo.initial : TargetInfo :=
  { crate_type_process := none, crate_types := [], cfg := none, sysroot_libdir := none }

/-- The inner text of a target.cfg(...) section name: the byte range
between "cfg(" and the final ")" as the source slices it. -/
def cfg_inner (t : String) : String :=
  ⟨(t.data.drop 4).dropLast⟩

/-- Function env_args of context/mod.rs: resolve the extra compiler
flags (RUSTFLAGS or RUSTDOCFLAGS) for one unit kind.  pred_matches
models CfgExpr::from_str followed by CfgExpr::matches on the probed
active cfg set: it returns true when the section text parses and the
parsed predicate is satisfied (util::CfgExpr is outside the embedded
file). -/
def env_args (config : Config) (build_config : BuildConfig) (target_info : TargetInfo)
    (pred_matches : String → List String → Bool) (kind : Kind) (name : String) :
    List String :=
  if build_config.requested_target.isSome && !(kind == Kind.Target) then
    []
  else
    match config.env name with
    | some a => ((rsplit " " a).map rtrim).filter (fun s => !(s == ""))
    | none =>
      let name := rlower name
      let target := build_config.requested_target.getD build_config.host_triple
      let rustflags := (config.lists ("target." ++ target ++ "." ++ name)).getD []
      let rustflags := rustflags ++
        (match target_info.cfg, config.target_table_keys with
         | some target_cfg, some keys =>
           let cfgs := keys.filterMap (fun t =>
             if rstarts "cfg(" t && rends ")" t then
               if pred_matches (cfg_inner t) target_cfg then some t else none
             else none)
           let cfgs := List.insertionSort str_le cfgs
           cfgs.flatMap (fun n => (config.lists ("target." ++ n ++ "." ++ name)).getD [])
         | _, _ => [])
      if !rustflags.isEmpty then rustflags
      else (config.lists ("build." ++ name)).getD []

/-- The pieces of struct Context that its embedded methods consult.
host_info and target_info are the two probed TargetInfo values,
incremental_env is the parsed CARGO_INCREMENTAL variable,
build_script_overridden is the override set of (package id, kind)
pairs, unit_dependencies models the finished dependency map, and
incremental_dir models files().layout(kind).incremental().display(). -/
structure Context where
  config : Config
  build_config : BuildConfig
  host_info : TargetInfo
  target_info : TargetInfo
  incremental_env : Option Bool
  build_script_overridden : List (PackageId × Kind)
  unit_dependencies : CUnit → List CUnit
  incremental_dir : Kind → String

/-- Method Context::info: select the TargetInfo for a kind. -/
def Context.info (cx : Context) (kind : Kind) : TargetInfo :=
  match kind with
  | Kind.Host => cx.host_info
  | Kind.Target => cx.target_info

/-- Method Context::rustflags_args. -/
def Context.rustflags_args (cx : Context) (pred_matches : String → List String → Bool)
    (u : CUnit) : List String :=
  env_args cx.config cx.build_config (cx.info u.kind) pred_matches u.kind "RUSTFLAGS"

/-- Method Context::rustdocflags_args. -/
def Context.rustdocflags_args (cx : Context) (pred_matches : String → List String → Bool)
    (u : CUnit) : List String :=
  env_args cx.config cx.build_config (cx.info u.kind) pred_matches u.kind "RUSTDOCFLAGS"

/-- Method Context::incremental_args: decide whether to request
incremental compilation for a unit and produce the resulting flag
list. -/
def Context.incremental_args (cx : Context) (u : CUnit) : List String :=
  let global_cfg := cx.config.bools "build.incremental"
  let incremental :=
    match cx.incremental_env, global_cfg, u.profile.incremental with
    | some v, _, _ => v
    | none, some false, _ => false
    | none, _, other => other
  if !incremental then []
  else if !u.pkg.package_id.source_id.is_path then []
  else ["-C", "incremental=" ++ cx.incremental_dir u.kind]

/-- Method Context::dep_targets: the registered dependencies of a unit,
except that an overridden custom-build-script run unit reports no
dependencies at all. -/
def Context.dep_targets (cx : Context) (u : CUnit) : List CUnit :=
  if u.profile.run_custom_build &&
      cx.build_script_overridden.contains (u.pkg.package_id, u.kind) then
    []
  else
    cx.unit_dependencies u

/-- Function parse_crate_type of context/mod.rs.  The mutable Lines
iterator is modelled by passing the pending line list in and returning
the still-unconsumed remainder. -/
def parse_crate_type (crate_type : String) (error : String) (lines : List String) :
    Except String (Option (String × String) × List String) :=
  let not_supported := (rust_lines error).any (fun line =>
    (str_contains line "unsupported crate type" || str_contains line "unknown crate type")
      && str_contains line crate_type)
  if not_supported then
    .ok (none, lines)
  else
    match lines with
    | [] =>
      .error ("malformed output when learning about crate-type " ++ crate_type ++ " information")
    | line :: rest =>
      match (rsplit "___" (rtrim line)) with
      | pre :: suffix :: _ => .ok (some (pre, suffix), rest)
      | _ => .error "output of --print=file-names has changed in the compiler, cannot parse"

/-- The crate-type probing loop of probe_target_info_kind: run
parse_crate_type once per requested crate type, threading the line
iterator, and collect the per-type results (the source stores them in a
map keyed by the type name). -/
def parse_crate_type_list (types : List String) (error : String) (lines : List String) :
    Except String (List (String × Option (String × String)) × List String) :=
  match types with
  | [] => .ok ([], lines)
  | t :: ts =>
    match parse_crate_type t error lines with
    | .error e => .error e
    | .ok (out, rest) =>
      match parse_crate_type_list ts error rest with
      | .error e => .error e
      | .ok (m, rest2) => .ok ((t, out) :: m, rest2)

/-- Method Context::target_triple: the triple this context targets. -/
def target_triple (build_config : BuildConfig) : String :=
  build_config.requested_target.getD build_config.host_triple

/-- Captured output of one external rustc invocation. -/
structure ProcOutput where
  stdout : String
  stderr : String

/-- The fixed ordered probe list KNOWN_CRATE_TYPES. -/
def KNOWN_CRATE_TYPES : List String :=
  ["bin", "rlib", "dylib", "cdylib", "staticlib", "proc-macro"]

/-- Method Context::probe_target_info_kind.  The external rustc binary
is modelled by exec, a function from the argument list of an invocation
to its captured output, with none meaning the invocation failed; the
cfg lines after the sysroot line are recorded as their raw text
(util::Cfg::from_str lives outside the embedded file).  windows models
the cfg!(windows) compile-time test.  info is the TargetInfo the
context currently holds for the probed kind (still
TargetInfo::initial while probing). -/
def probe_target_info_kind (exec : List String → Option ProcOutput) (config : Config)
    (build_config : BuildConfig) (pred_matches : String → List String → Bool)
    (windows : Bool) (info : TargetInfo) (kind : Kind) : Except String TargetInfo :=
  let rustflags := env_args config build_config info pred_matches kind "RUSTFLAGS"
  let args0 := ["-", "--crate-name", "___", "--print=file-names"] ++ rustflags
  let args0 :=
    if kind == Kind.Target then args0 ++ ["--target", target_triple build_config] else args0
  let crate_type_process := args0
  let args1 := args0 ++ KNOWN_CRATE_TYPES.flatMap (fun t => ["--crate-type", t])
  let with_cfg := args1 ++ ["--print=sysroot", "--print=cfg"]
  let attempt :=
    match exec with_cfg with
    | some o => some (true, o)
    | none =>
      match exec args1 with
      | some o => some (false, o)
      | none => none
  match attempt with
  | none => .error "failed to run `rustc` to learn about target-specific information"
  | some (has_cfg_and_sysroot, output) =>
    match parse_crate_type_list KNOWN_CRATE_TYPES output.stderr (rust_lines output.stdout) with
    | .error e => .error e
    | .ok (map, lines) =>
      if has_cfg_and_sysroot then
        match lines with
        | [] =>
          .error "output of --print=sysroot missing when learning about target-specific information from rustc"
        | line :: rest =>
          let rustlib : List String := [line]
          let sysroot_libdir :=
            if kind == Kind.Host then
              if windows then rustlib ++ ["bin"] else rustlib ++ ["lib"]
            else
              rustlib ++ ["lib", "rustlib", target_triple build_config, "lib"]
          .ok { crate_type_process := some crate_type_process, crate_types := map,
                cfg := some rest, sysroot_libdir := some sysroot_libdir }
      else
        .ok { crate_type_process := some crate_type_process, crate_types := map,
              cfg := none, sysroot_libdir := none }

/-- Result of Context::probe_target_info: the two TargetInfo values the
context stores, together with the list of kinds for which
probe_target_info_kind was invoked, in invocation order. -/
structure ProbeResult where
  host_info : TargetInfo
  target_info : TargetInfo
  probes : List Kind
deriving DecidableEq

/-- Method Context::probe_target_info.  rustc_host models
config.rustc().host.  Both per-kind probes run with the TargetInfo the
context holds at that moment, which is still TargetInfo::initial for
the probed kind in every branch. -/
def probe_target_info (exec : List String → Option ProcOutput) (config : Config)
    (build_config : BuildConfig) (pred_matches : String → List String → Bool)
    (windows : Bool) (rustc_host : String) : Except String ProbeResult :=
  if (match build_config.requested_target with
      | some s => s == rustc_host
      | none => true : Bool) then
    match probe_target_info_kind exec config build_config pred_matches windows
        TargetInfo.initial Kind.Target with
    | .error e => .error e
    | .ok info => .ok { host_info := info, target_info := info, probes := [Kind.Target] }
  else
    match probe_target_info_kind exec config build_config pred_matches windows
        TargetInfo.initial Kind.Host with
    | .error e => .error e
    | .ok hi =>
      match probe_target_info_kind exec config build_config pred_matches windows
          TargetInfo.initial Kind.Target with
      | .error e => .error e
      | .ok ti => .ok { host_info := hi, target_info := ti, probes := [Kind.Host, Kind.Target] }

/-- Abstract build graph data for the plugin-reachability walk: the
finished dependency map restricted to what walk_used_in_plugin_map
reads, namely dep_targets (deps) and Target::for_host (for_host),
indexed by an arbitrary finite unit type U. -/
structure PluginGraph (U : Type) where
  deps : U → List U
  for_host : U → Bool

/-- Successors of a node of the product walk space: the walk visits
pairs of a unit and the accumulated is_plugin flag, and passes
is_plugin OR for_host of the dependency to each dependency. -/
def succsP {U : Type} (g : PluginGraph U) (p : U × Bool) : List (U × Bool) :=
  (g.deps p.1).map (fun d => (d, p.2 || g.for_host d))

mutual
/-- Method Context::walk_used_in_plugin_map.  The Rust recursion always
terminates because the visited set blocks re-entry; here this
termination argument is made explicit with a fuel parameter that every
caller instantiates with more fuel than there are unvisited (unit,
flag) pairs, so the zero-fuel branch is never taken. -/
def walk_used_in_plugin {U : Type} [DecidableEq U] (g : PluginGraph U) (n : Nat) (u : U)
    (is_plugin : Bool) (visited : Finset (U × Bool)) (used : Finset U) :
    Finset (U × Bool) × Finset U :=
  match n with
  | 0 => (visited, used)
  | n + 1 =>
    if (u, is_plugin) ∈ visited then (visited, used)
    else
      walk_deps g n (g.deps u) is_plugin (insert (u, is_plugin) visited)
        (if is_plugin then insert u used else used)
termination_by (n, 0)

/-- The dependency loop inside walk_used_in_plugin_map, threading the
visited and used_in_plugin sets through the recursive calls. -/
def walk_deps {U : Type} [DecidableEq U] (g : PluginGraph U) (n : Nat) (ds : List U)
    (is_plugin : Bool) (visited : Finset (U × Bool)) (used : Finset U) :
    Finset (U × Bool) × Finset U :=
  match ds with
  | [] => (visited, used)
  | d :: ds2 =>
    let r := walk_used_in_plugin g n d (is_plugin || g.for_host d) visited used
    walk_deps g n ds2 is_plugin r.1 r.2
termination_by (n, ds.length + 1)
end

/-- The root loop of Context::build_used_in_plugin_map: a fresh visited
set, walked from every root with the root target for_host flag as the
seed, threading the persistent used_in_plugin set of the context. -/
def walk_roots {U : Type} [DecidableEq U] [Fintype U] (g : PluginGraph U) :
    List U → Finset (U × Bool) → Finset U → Finset (U × Bool) × Finset U
  | [], visited, used => (visited, used)
  | u :: rest, visited, used =>
    let r := walk_used_in_plugin g (Fintype.card (U × Bool) + 1) u (g.for_host u) visited used
    walk_roots g rest r.1 r.2

/-- Method Context::build_used_in_plugin_map: the used_in_plugin set of
the context after walking the given roots, starting from the current
used_in_plugin set. -/
def build_used_in_plugin_map {U : Type} [DecidableEq U] [Fintype U] (g : PluginGraph U)
    (units : List U) (used_in_plugin : Finset U) : Finset U :=
  (walk_roots g units ∅ used_in_plugin).2

/-- Reachability in the product walk space along paths of length n all
of whose nodes satisfy NOT avoid: the start node carries the
accumulated is_plugin flag, and every edge ORs in the for_host flag of
the dependency, so a pair (x, true) is reachable from (root, seed) iff
some dependency path from root to x accumulates a true flag. -/
inductive ReachVia {U : Type} (g : PluginGraph U) (avoid : U × Bool → Prop) :
    U × Bool → U × Bool → Nat → Prop where
  | refl (p : U × Bool) (h : ¬ avoid p) : ReachVia g avoid p p 0
  | step (p q r : U × Bool) (n : Nat) (h : ¬ avoid p) (hq : q ∈ succsP g p)
      (ht : ReachVia g avoid q r n) : ReachVia g avoid p r (n + 1)

/-- Reachability avoiding a node predicate, with the path length
forgotten. -/
def ReachPlugin {U : Type} (g : PluginGraph U) (avoid : U × Bool → Prop)
    (p q : U × Bool) : Prop :=
  ∃ n, ReachVia g avoid p q n

/-- The incremental-compilation decision table exactly as the claim
states it: an environment override wins outright, else a global
configuration value of false wins, else the profile default applies. -/
def spec_incremental_decision (env global : Option Bool) (profile_default : Bool) : Bool :=
  match env with
  | some v => v
  | none =>
    match global with
    | some false => false
    | _ => profile_default

/-- The cfg-shaped configuration sections whose predicate matches the
probed active configuration set, as the claim describes them. -/
def cfg_matching_keys (pred_matches : String → List String → Bool)
    (target_cfg : List String) (keys : List String) : List String :=
  keys.filter (fun t => (rstarts "cfg(" t && rends ")" t) && pred_matches (cfg_inner t) target_cfg)

/-- Flag resolution in the absence of an environment override, written
following the wording of the claim: the per-triple flags, then the
flags of every matching cfg section in lexicographically sorted order
of the section text, and the global blanket key only when those two
layers together produced no flags at all. -/
def spec_flags_without_env (config : Config) (build_config : BuildConfig) (ti : TargetInfo)
    (pred_matches : String → List String → Bool) (name : String) : List String :=
  let nm := rlower name
  let target := build_config.requested_target.getD build_config.host_triple
  let triple_flags := (config.lists ("target." ++ target ++ "." ++ nm)).getD []
  let cfg_flags :=
    match ti.cfg, config.target_table_keys with
    | some target_cfg, some keys =>
      (List.insertionSort str_le (cfg_matching_keys pred_matches target_cfg keys)).flatMap
        (fun n => (config.lists ("target." ++ n ++ "." ++ nm)).getD [])
    | _, _ => []
  if triple_flags ++ cfg_flags = [] then (config.lists ("build." ++ nm)).getD []
  else triple_flags ++ cfg_flags

/-- A cfg matcher that matches everything, used by concrete witnesses. -/
def predTrue : String → List String → Bool := fun _ _ => true

/-- A concrete context whose build explicitly requests a target triple
equal to the host triple, with the flag environment variable set. -/
def cxC1 : Context :=
  ⟨⟨fun _ => some "-O", fun _ => none, fun _ => none, none⟩, ⟨"x", some "x"⟩,
    TargetInfo.initial, TargetInfo.initial, none, [], fun _ => [], fun _ => ""⟩

/-- A concrete unit of Host kind. -/
def uHost : CUnit :=
  ⟨⟨⟨"p", ⟨true⟩⟩⟩, ⟨"t", false⟩, ⟨true, false⟩, Kind.Host⟩

/-- A concrete configuration with the environment variable set and,
deliberately, configuration-file flag entries everywhere. -/
def cfgC2 : Config :=
  ⟨fun _ => some " -O2  -g ", fun _ => some ["IGNORED"], fun _ => none, some ["cfg(unix)"]⟩

/-- A concrete build configuration with no requested target. -/
def bcNoTarget : BuildConfig := ⟨"h", none⟩

/-- A concrete context carrying an override entry and a nonempty
dependency map entry for the overridden unit. -/
def cxC8 : Context :=
  ⟨⟨fun _ => none, fun _ => none, fun _ => none, none⟩, ⟨"h", none⟩,
    TargetInfo.initial, TargetInfo.initial, none, [(⟨"p", ⟨true⟩⟩, Kind.Host)],
    fun _ => [uHost], fun _ => ""⟩

/-- A concrete custom-build-script run unit for the overridden package. -/
def uC8 : CUnit :=
  ⟨⟨⟨"p", ⟨true⟩⟩⟩, ⟨"build-script-build", true⟩, ⟨false, true⟩, Kind.Host⟩

/-- The diagnostic test of parse_crate_type: some stderr line contains
one of the two unsupported-crate-type phrases together with the probed
type name. -/
def crate_type_rejected (crate_type error : String) : Bool :=
  (rust_lines error).any (fun line =>
    (str_contains line "unsupported crate type" || str_contains line "unknown crate type")
      && str_contains line crate_type)

/-- A concrete configuration for the C3 witness: no environment
override, two cfg-shaped target sections declared in reverse
lexicographic order, each with its own flag list. -/
def cfgC3 : Config :=
  ⟨fun _ => none,
    fun k =>
      if k = "target.cfg(a).rustflags" then some ["A"]
      else if k = "target.cfg(b).rustflags" then some ["B"]
      else none,
    fun _ => none, some ["cfg(b)", "cfg(a)"]⟩

/-- The same configuration with the section declaration order flipped. -/
def cfgC3b : Config :=
  ⟨cfgC3.env, cfgC3.lists, cfgC3.bools, some ["cfg(a)", "cfg(b)"]⟩

/-- A TargetInfo whose probe reported an (empty) active cfg set, so the
cfg layer is consulted. -/
def tiC3 : TargetInfo :=
  { crate_type_process := none, crate_types := [], cfg := some [], sysroot_libdir := none }

/-- An external compiler model that answers every invocation with six
crate-type lines, a sysroot line and no cfg lines. -/
def execProbe : List String → Option ProcOutput :=
  fun _ => some ⟨"l___a\nl___a\nl___a\nl___a\nl___a\nl___a\nSYS", ""⟩

/-- An empty configuration store. -/
def cfgNone : Config := ⟨fun _ => none, fun _ => none, fun _ => none, none⟩

/-- A build configuration with no requested target and host triple HT. -/
def bcSame : BuildConfig := ⟨"HT", none⟩

/-- The TargetInfo the probe of execProbe produces for Kind.Target
under bcSame. -/
def infoProbe : TargetInfo :=
  { crate_type_process :=
      some ["-", "--crate-name", "___", "--print=file-names", "--target", "HT"],
    crate_types := [("bin", some ("l", "a")), ("rlib", some ("l", "a")),
      ("dylib", some ("l", "a")), ("cdylib", some ("l", "a")),
      ("staticlib", some ("l", "a")), ("proc-macro", some ("l", "a"))],
    cfg := some [],
    sysroot_libdir := some ["SYS", "lib", "rustlib", "HT", "lib"] }

/-- The ProbeResult of probe_target_info for execProbe under bcSame. -/
def rSame : ProbeResult := ⟨infoProbe, infoProbe, [Kind.Target]⟩

/-- The per-kind sysroot library directory shape: the platform
binary/library subdirectory for a Host probe, the rustlib path for the
target triple for a Target probe. -/
def libdir_suffix (build_config : BuildConfig) (windows : Bool) (kind : Kind) : List String :=
  match kind with
  | Kind.Host => [if windows then "bin" else "lib"]
  | Kind.Target => ["lib", "rustlib", target_triple build_config, "lib"]

/-- A build configuration requesting target TT, distinct from the
rustc host HT. -/
def bcDiff : BuildConfig := ⟨"HT", some "TT"⟩

/-- The TargetInfo the probe of execProbe produces for Kind.Host under
bcDiff on a non-windows platform. -/
def infoHostDiff : TargetInfo :=
  { crate_type_process := some ["-", "--crate-name", "___", "--print=file-names"],
    crate_types := [("bin", some ("l", "a")), ("rlib", some ("l", "a")),
      ("dylib", some ("l", "a")), ("cdylib", some ("l", "a")),
      ("staticlib", some ("l", "a")), ("proc-macro", some ("l", "a"))],
    cfg := some [],
    sysroot_libdir := some ["SYS", "lib"] }

/-- The TargetInfo the probe of execProbe produces for Kind.Target
under bcDiff. -/
def infoTargetDiff : TargetInfo :=
  { crate_type_process :=
      some ["-", "--crate-name", "___", "--print=file-names", "--target", "TT"],
    crate_types := [("bin", some ("l", "a")), ("rlib", some ("l", "a")),
      ("dylib", some ("l", "a")), ("cdylib", some ("l", "a")),
      ("staticlib", some ("l", "a")), ("proc-macro", some ("l", "a"))],
    cfg := some [],
    sysroot_libdir := some ["SYS", "lib", "rustlib", "TT", "lib"] }

/-- The ProbeResult of probe_target_info for execProbe under bcDiff. -/
def rDiff : ProbeResult := ⟨infoHostDiff, infoTargetDiff, [Kind.Host, Kind.Target]⟩

/-- A concrete two-unit plugin graph for the C9 witness: the non-host
unit false depends on the host-requiring unit true. -/
def gW : PluginGraph Bool := ⟨fun u => if u then [] else [true], fun u => u⟩

/-- Two strings with the same character data are equal. -/
theorem string_data_eq {a b : String} (h : a.data = b.data) : a = b := by
  cases a
  cases b
  exact congrArg String.mk h

/-- Totality of the byte-lexicographic comparison. -/
theorem charListLe_total : ∀ a b : List Char, charListLe a b = true ∨ charListLe b a = true
  | [], _ => Or.inl rfl
  | _ :: _, [] => Or.inr rfl
  | a :: as, b :: bs => by
    rcases lt_trichotomy a b with hab | hab | hab
    · left
      simp [charListLe, hab]
    · subst hab
      rcases charListLe_total as bs with ih | ih
      · left
        simp [charListLe, lt_irrefl, ih]
      · right
        simp [charListLe, lt_irrefl, ih]
    · right
      simp [charListLe, hab]

/-- Transitivity of the byte-lexicographic comparison. -/
theorem charListLe_trans : ∀ a b c : List Char,
    charListLe a b = true → charListLe b c = true → charListLe a c = true
  | [], _, _, _, _ => rfl
  | _ :: _, [], _, h1, _ => by simp [charListLe] at h1
  | _ :: _, _ :: _, [], _, h2 => by simp [charListLe] at h2
  | a :: as, b :: bs, c :: cs, h1, h2 => by
    simp only [charListLe] at h1 h2 ⊢
    rcases lt_trichotomy a b with hab | hab | hab
    · rcases lt_trichotomy b c with hbc | hbc | hbc
      · simp [lt_trans hab hbc]
      · subst hbc
        simp [hab]
      · rw [if_neg (lt_asymm hbc), if_pos hbc] at h2
        cases h2
    · subst hab
      rw [if_neg (lt_irrefl a), if_neg (lt_irrefl a)] at h1
      rcases lt_trichotomy a c with hac | hac | hac
      · simp [hac]
      · subst hac
        rw [if_neg (lt_irrefl a), if_neg (lt_irrefl a)] at h2 ⊢
        exact charListLe_trans as bs cs h1 h2
      · rw [if_neg (lt_asymm hac), if_pos hac] at h2
        cases h2
    · rw [if_neg (lt_asymm hab), if_pos hab] at h1
      cases h1

/-- Antisymmetry of the byte-lexicographic comparison. -/
theorem charListLe_antisymm : ∀ a b : List Char,
    charListLe a b = true → charListLe b a = true → a = b
  | [], [], _, _ => rfl
  | [], _ :: _, _, h2 => by simp [charListLe] at h2
  | _ :: _, [], h1, _ => by simp [charListLe] at h1
  | a :: as, b :: bs, h1, h2 => by
    simp only [charListLe] at h1 h2
    rcases lt_trichotomy a b with hab | hab | hab
    · rw [if_neg (lt_asymm hab), if_pos hab] at h2
      cases h2
    · subst hab
      rw [if_neg (lt_irrefl a), if_neg (lt_irrefl a)] at h1 h2
      rw [charListLe_antisymm as bs h1 h2]
    · rw [if_neg (lt_asymm hab), if_pos hab] at h1
      cases h1

/-- A filterMap whose function is a guarded identity is a filter. -/
theorem filterMap_guard {α : Type} (p m : α → Bool) (l : List α) :
    l.filterMap (fun t => if p t then (if m t then some t else none) else none)
      = l.filter (fun t => p t && m t) := by
  induction l with
  | nil => rfl
  | cons x xs ih =>
    by_cases hp : p x = true
    · by_cases hm : m x = true
      · simp [List.filterMap_cons, List.filter_cons, hp, hm, ih]
      · simp only [Bool.not_eq_true] at hm
        simp [List.filterMap_cons, List.filter_cons, hp, hm, ih]
    · simp only [Bool.not_eq_true] at hp
      simp [List.filterMap_cons, List.filter_cons, hp, ih]

/-- C1: for every unit of Host kind, when a target triple was
explicitly requested for the build, flag resolution (rustflags_args,
rustdocflags_args, and env_args for any variable name) returns the
empty flag list, whatever the configuration holds, in particular when
the requested triple equals the host triple and when the environment
variable is set. -/
theorem C1_host_kind_flags_empty (cx : Context) (pred : String → List String → Bool)
    (u : CUnit) (tgt : String)
    (hreq : cx.build_config.requested_target = some tgt)
    (hkind : u.kind = Kind.Host) :
    cx.rustflags_args pred u = [] ∧ cx.rustdocflags_args pred u = [] ∧
      ∀ name, env_args cx.config cx.build_config (cx.info u.kind) pred u.kind name = [] := by
  refine ⟨?_, ?_, fun name => ?_⟩ <;>
    simp [Context.rustflags_args, Context.rustdocflags_args, env_args, hreq, hkind]

/-- Witness for C1 at a concrete context in which the requested triple
equals the host triple and the environment variable is set. -/
theorem C1_host_kind_flags_empty_witness :
    cxC1.build_config.requested_target = some "x" ∧ uHost.kind = Kind.Host ∧
      cxC1.config.env "RUSTFLAGS" = some "-O" ∧ cxC1.rustflags_args predTrue uHost = [] :=
  ⟨rfl, rfl, rfl, (C1_host_kind_flags_empty cxC1 predTrue uHost "x" rfl rfl).1⟩

/-- C2: for a flag-eligible unit kind (the Target kind, or any kind
when no target was explicitly requested), a set flag environment
variable resolves to exactly its value split on spaces with every token
trimmed and empty tokens dropped, and the result is the same for any
configuration store carrying the same environment value, so no
configuration-file entry influences the outcome. -/
theorem C2_env_override_wins (config : Config) (build_config : BuildConfig)
    (ti : TargetInfo) (pred : String → List String → Bool) (kind : Kind) (name a : String)
    (helig : kind = Kind.Target ∨ build_config.requested_target = none)
    (henv : config.env name = some a) :
    env_args config build_config ti pred kind name
        = ((rsplit " " a).map rtrim).filter (fun s => !(s == "")) ∧
      ∀ config2 : Config, config2.env name = some a →
        env_args config2 build_config ti pred kind name
          = ((rsplit " " a).map rtrim).filter (fun s => !(s == "")) := by
  have key : ∀ c : Config, c.env name = some a →
      env_args c build_config ti pred kind name
        = ((rsplit " " a).map rtrim).filter (fun s => !(s == "")) := by
    intro c hc
    rcases helig with hk | hr
    · subst hk
      simp [env_args, hc]
    · simp [env_args, hr, hc]
  exact ⟨key config henv, fun c2 h2 => key c2 h2⟩

/-- Witness for C2: the set environment value is tokenised and the
configuration-file entries are ignored. -/
theorem C2_env_override_wins_witness :
    env_args cfgC2 bcNoTarget TargetInfo.initial predTrue Kind.Host "RUSTFLAGS"
      = ["-O2", "-g"] := by
  have h := (C2_env_override_wins cfgC2 bcNoTarget TargetInfo.initial predTrue Kind.Host
    "RUSTFLAGS" " -O2  -g " (Or.inr rfl) rfl).1
  rw [h]
  decide

/-- C8: a unit whose profile marks it as a custom-build-script run and
whose (package id, kind) pair is in the build-script override set has
an empty dependency list. -/
theorem C8_build_script_override_no_deps (cx : Context) (u : CUnit)
    (h1 : u.profile.run_custom_build = true)
    (h2 : (u.pkg.package_id, u.kind) ∈ cx.build_script_overridden) :
    cx.dep_targets u = [] := by
  have hc : cx.build_script_overridden.contains (u.pkg.package_id, u.kind) = true :=
    List.elem_eq_true_of_mem h2
  unfold Context.dep_targets
  rw [h1, hc]
  simp

/-- Witness for C8 at a concrete overridden build-script unit whose raw
dependency map entry is nonempty. -/
theorem C8_build_script_override_no_deps_witness :
    uC8.profile.run_custom_build = true ∧
      (uC8.pkg.package_id, uC8.kind) ∈ cxC8.build_script_overridden ∧
      cxC8.unit_dependencies uC8 = [uHost] ∧ cxC8.dep_targets uC8 = [] :=
  ⟨rfl, by decide, rfl,
    C8_build_script_override_no_deps cxC8 uC8 rfl (by decide)⟩

/-- A rejected crate type makes parse_crate_type yield none and leave
the stdout lines untouched. -/
theorem parse_crate_type_rejected (crate_type error : String) (lines : List String)
    (h : crate_type_rejected crate_type error = true) :
    parse_crate_type crate_type error lines = .ok (none, lines) := by
  unfold parse_crate_type
  unfold crate_type_rejected at h
  rw [h]
  simp

/-- C10: parse_crate_type decides unsupportedness purely by substring
containment: any stderr line containing one of the phrases together
with the probed type text anywhere yields none without consuming a
stdout line, and in particular a diagnostic about cdylib makes a probe
of dylib report as unsupported. -/
theorem C10_substring_rejection (crate_type error : String) (lines : List String)
    (h : crate_type_rejected crate_type error = true) :
    parse_crate_type crate_type error lines = .ok (none, lines) ∧
      ∀ ls : List String,
        parse_crate_type "dylib" "error: unknown crate type: cdylib" ls = .ok (none, ls) :=
  ⟨parse_crate_type_rejected crate_type error lines h, fun ls => rfl⟩

/-- Witness for C10: the cdylib diagnostic rejects a dylib probe while
a full stdout line is waiting to be consumed. -/
theorem C10_substring_rejection_witness :
    crate_type_rejected "dylib" "error: unknown crate type: cdylib" = true ∧
      parse_crate_type "dylib" "error: unknown crate type: cdylib" ["lib___rlib"]
        = .ok (none, ["lib___rlib"]) :=
  ⟨by decide,
    (C10_substring_rejection "dylib" "error: unknown crate type: cdylib" ["lib___rlib"]
      (by decide)).1⟩

/-- C5: the crate-type probe parsing contract: the concrete two-line
stdout with no diagnostics parses to the two prefix/suffix pairs; a
matching stderr diagnostic yields none for that type without error and
without consuming stdout; and a missing stdout line, or a stdout line
with no suffix token after the first ___ delimiter, is a fatal error. -/
theorem C5_parse_crate_type_contract :
    (parse_crate_type_list ["rlib", "dylib"] "" (rust_lines "lib___rlib\nlib___dylib")
        = .ok ([("rlib", some ("lib", "rlib")), ("dylib", some ("lib", "dylib"))], [])) ∧
      (∀ t e ls, crate_type_rejected t e = true →
        parse_crate_type t e ls = .ok (none, ls)) ∧
      (∀ t e, crate_type_rejected t e = false →
        parse_crate_type t e []
          = .error ("malformed output when learning about crate-type " ++ t ++ " information")) ∧
      (∀ t e line rest p, crate_type_rejected t e = false →
        rsplit "___" (rtrim line) = [p] →
        parse_crate_type t e (line :: rest)
          = .error "output of --print=file-names has changed in the compiler, cannot parse") := by
  refine ⟨rfl, fun t e ls h => parse_crate_type_rejected t e ls h, fun t e h => ?_,
    fun t e line rest p h hsplit => ?_⟩
  · unfold parse_crate_type
    unfold crate_type_rejected at h
    rw [h]
    simp
  · unfold parse_crate_type
    unfold crate_type_rejected at h
    rw [h]
    simp only [Bool.false_eq_true, if_false]
    rw [hsplit]

/-- Witness for C5: the general clauses applied at concrete inputs: a
dylib diagnostic, an exhausted stdout, and a delimiter-free line. -/
theorem C5_parse_crate_type_contract_witness :
    (parse_crate_type "dylib" "unknown crate type: dylib" ["x"] = .ok (none, ["x"])) ∧
      (parse_crate_type "rlib" "" []
        = .error "malformed output when learning about crate-type rlib information") ∧
      (parse_crate_type "rlib" "" ["librlib"]
        = .error "output of --print=file-names has changed in the compiler, cannot parse") :=
  ⟨(C5_parse_crate_type_contract.2.1 "dylib" "unknown crate type: dylib" ["x"] (by decide)),
    (C5_parse_crate_type_contract.2.2.1 "rlib" "" (by decide)),
    (C5_parse_crate_type_contract.2.2.2 "rlib" "" "librlib" [] "librlib" (by decide) (by decide))⟩

/-- C4: incremental_args follows the claimed decision table (the
environment override wins outright, else a global configuration value
of false wins, else the profile default applies), gated by the
requirement that the package originate from a locally editable path
source; in every other case, in particular for every non-path package,
the flag list is empty. -/
theorem C4_incremental_policy (cx : Context) (u : CUnit) :
    cx.incremental_args u =
      if spec_incremental_decision cx.incremental_env (cx.config.bools "build.incremental")
            u.profile.incremental && u.pkg.package_id.source_id.is_path then
        ["-C", "incremental=" ++ cx.incremental_dir u.kind]
      else [] := by
  unfold Context.incremental_args spec_incremental_decision
  rcases henv : cx.incremental_env with _ | v
  · rcases hg : cx.config.bools "build.incremental" with _ | g
    · cases hprof : u.profile.incremental <;>
        cases hpath : u.pkg.package_id.source_id.is_path <;> simp [hprof, hpath]
    · cases g <;> cases hprof : u.profile.incremental <;>
        cases hpath : u.pkg.package_id.source_id.is_path <;> simp [hprof, hpath]
  · cases v <;> cases hpath : u.pkg.package_id.source_id.is_path <;> simp [hpath]

/-- The code branch on the emptiness of the accumulated flags, phrased
as the specification phrases it. -/
theorem list_if_nonempty (l b : List String) :
    (if !l.isEmpty then l else b) = (if l = [] then b else l) := by
  cases l <;> simp

/-- In the absence of an environment override, for an eligible kind,
env_args computes exactly the layered resolution described by
spec_flags_without_env. -/
theorem env_args_eq_spec_flags (config : Config) (build_config : BuildConfig)
    (ti : TargetInfo) (pred : String → List String → Bool) (kind : Kind) (name : String)
    (helig : kind = Kind.Target ∨ build_config.requested_target = none)
    (henv : config.env name = none) :
    env_args config build_config ti pred kind name
      = spec_flags_without_env config build_config ti pred name := by
  have hguard : (build_config.requested_target.isSome && !(kind == Kind.Target)) = false := by
    rcases helig with hk | hr
    · subst hk
      simp
    · simp [hr]
  unfold env_args spec_flags_without_env
  rw [hguard, henv]
  simp only [Bool.false_eq_true, if_false]
  rcases hc : ti.cfg with _ | tcfg <;>
    rcases hk : config.target_table_keys with _ | keys <;>
      simp only [list_if_nonempty] <;>
        rw [filterMap_guard (fun t => rstarts "cfg(" t && rends ")" t)
          (fun t => pred (cfg_inner t) tcfg) keys] <;>
          simp only [cfg_matching_keys]

/-- C3: without an environment override, for an eligible kind, env_args
equals the claimed layered resolution (matching cfg sections applied in
lexicographically sorted order of the section text on top of the
per-triple flags, the global blanket key consulted only when those two
layers produced nothing); consequently the result is invariant under
any reordering of the configuration-table key declarations. -/
theorem C3_sorted_cfg_and_global_fallback (config : Config) (build_config : BuildConfig)
    (ti : TargetInfo) (pred : String → List String → Bool) (kind : Kind) (name : String)
    (helig : kind = Kind.Target ∨ build_config.requested_target = none)
    (henv : config.env name = none) :
    env_args config build_config ti pred kind name
        = spec_flags_without_env config build_config ti pred name ∧
      ∀ (keys keys2 : List String) (config2 : Config),
        config.target_table_keys = some keys →
        config2.env = config.env → config2.lists = config.lists →
        config2.target_table_keys = some keys2 → keys2.Perm keys →
        env_args config2 build_config ti pred kind name
          = env_args config build_config ti pred kind name := by
  refine ⟨env_args_eq_spec_flags config build_config ti pred kind name helig henv, ?_⟩
  intro keys keys2 config2 hk he hl hk2 hperm
  have henv2 : config2.env name = none := by
    rw [he, henv]
  rw [env_args_eq_spec_flags config2 build_config ti pred kind name helig henv2,
    env_args_eq_spec_flags config build_config ti pred kind name helig henv]
  unfold spec_flags_without_env
  rw [hl, hk, hk2]
  rcases hc : ti.cfg with _ | tcfg
  · rfl
  · haveI : IsTotal String str_le := ⟨fun a b => charListLe_total a.data b.data⟩
    haveI : IsTrans String str_le := ⟨fun a b c h1 h2 => charListLe_trans a.data b.data c.data h1 h2⟩
    haveI : IsAntisymm String str_le :=
      ⟨fun a b h1 h2 => string_data_eq (charListLe_antisymm a.data b.data h1 h2)⟩
    have hsort : List.insertionSort str_le (cfg_matching_keys pred tcfg keys2)
        = List.insertionSort str_le (cfg_matching_keys pred tcfg keys) := by
      refine List.eq_of_perm_of_sorted ?_ (List.sorted_insertionSort str_le _)
        (List.sorted_insertionSort str_le _)
      exact (List.perm_insertionSort str_le _).trans
        ((hperm.filter _).trans (List.perm_insertionSort str_le _).symm)
    simp only [hsort]

/-- Witness for C3: at the concrete configuration the code result
matches the specification-shaped resolution, is invariant under the
declaration-order flip, and applies the two matching sections in
sorted order of their text. -/
theorem C3_sorted_cfg_and_global_fallback_witness :
    env_args cfgC3 bcNoTarget tiC3 predTrue Kind.Host "RUSTFLAGS"
        = spec_flags_without_env cfgC3 bcNoTarget tiC3 predTrue "RUSTFLAGS" ∧
      env_args cfgC3b bcNoTarget tiC3 predTrue Kind.Host "RUSTFLAGS"
        = env_args cfgC3 bcNoTarget tiC3 predTrue Kind.Host "RUSTFLAGS" ∧
      env_args cfgC3 bcNoTarget tiC3 predTrue Kind.Host "RUSTFLAGS" = ["A", "B"] :=
  ⟨(C3_sorted_cfg_and_global_fallback cfgC3 bcNoTarget tiC3 predTrue Kind.Host "RUSTFLAGS"
      (Or.inr rfl) rfl).1,
    (C3_sorted_cfg_and_global_fallback cfgC3 bcNoTarget tiC3 predTrue Kind.Host "RUSTFLAGS"
      (Or.inr rfl) rfl).2 ["cfg(b)", "cfg(a)"] ["cfg(a)", "cfg(b)"] cfgC3b rfl rfl rfl rfl
      (by decide),
    by decide⟩

/-- C7: when no target is requested, or the requested target equals the
rustc host triple, context construction invokes
probe_target_info_kind exactly once (for Kind.Target) and stores the
single resulting TargetInfo as both host_info and target_info. -/
theorem C7_single_probe_when_triples_agree (exec : List String → Option ProcOutput)
    (config : Config) (build_config : BuildConfig) (pred : String → List String → Bool)
    (windows : Bool) (rustc_host : String) (r : ProbeResult)
    (hsame : build_config.requested_target = none ∨
      build_config.requested_target = some rustc_host)
    (hok : probe_target_info exec config build_config pred windows rustc_host = .ok r) :
    r.probes = [Kind.Target] ∧ r.host_info = r.target_info := by
  unfold probe_target_info at hok
  have hcond : (match build_config.requested_target with
      | some s => s == rustc_host
      | none => true : Bool) = true := by
    rcases hsame with h | h <;> simp [h]
  rw [hcond] at hok
  simp only [if_true] at hok
  rcases hp : probe_target_info_kind exec config build_config pred windows
      TargetInfo.initial Kind.Target with e | info
  · rw [hp] at hok
    cases hok
  · rw [hp] at hok
    simp only [Except.ok.injEq] at hok
    subst hok
    exact ⟨rfl, rfl⟩

/-- Witness for C7 at a concrete successful probe with no requested
target. -/
theorem C7_single_probe_when_triples_agree_witness :
    rSame.probes = [Kind.Target] ∧ rSame.host_info = rSame.target_info :=
  C7_single_probe_when_triples_agree execProbe cfgNone bcSame predTrue false "HT" rSame
    (Or.inl rfl) rfl

/-- Whenever probe_target_info_kind succeeds and recorded a sysroot
library directory (that is, the combined query succeeded), that
directory is the reported sysroot path joined with the per-kind
suffix. -/
theorem probe_kind_libdir_rule (exec : List String → Option ProcOutput) (config : Config)
    (build_config : BuildConfig) (pred : String → List String → Bool) (windows : Bool)
    (info : TargetInfo) (kind : Kind) (out : TargetInfo) (p : List String)
    (hok : probe_target_info_kind exec config build_config pred windows info kind = .ok out)
    (hlib : out.sysroot_libdir = some p) :
    ∃ sys, p = sys :: libdir_suffix build_config windows kind := by
  cases kind
  all_goals simp only [probe_target_info_kind] at hok
  repeat' split at hok
  all_goals try cases hok
  all_goals try cases hlib
  all_goals simp_all [libdir_suffix]

/-- C6 (amended): whenever the combined probe query succeeded, the
library directory recorded by a Kind.Host invocation of
probe_target_info_kind is the sysroot joined with the platform
subdirectory and that of a Kind.Target invocation is
sysroot/lib/rustlib/(target triple)/lib; in a successfully constructed
context the stored target_info always follows the Target rule, the
stored host_info follows the Host rule when the requested target
differs from the rustc host, and otherwise host_info is the Kind.Target
probe result itself (so it follows the Target rule, not the Host
rule). -/
theorem C6_sysroot_libdir_rules (exec : List String → Option ProcOutput) (config : Config)
    (build_config : BuildConfig) (pred : String → List String → Bool) (windows : Bool)
    (rustc_host : String) (r : ProbeResult)
    (hok : probe_target_info exec config build_config pred windows rustc_host = .ok r) :
    (∀ info kind out p,
        probe_target_info_kind exec config build_config pred windows info kind = .ok out →
        out.sysroot_libdir = some p →
        ∃ sys, p = sys :: libdir_suffix build_config windows kind) ∧
      (∀ p, r.target_info.sysroot_libdir = some p →
        ∃ sys, p = sys :: libdir_suffix build_config windows Kind.Target) ∧
      (∀ t, build_config.requested_target = some t → (t == rustc_host) = false →
        ∀ p, r.host_info.sysroot_libdir = some p →
          ∃ sys, p = sys :: libdir_suffix build_config windows Kind.Host) ∧
      ((build_config.requested_target = none ∨
          build_config.requested_target = some rustc_host) →
        r.host_info = r.target_info) := by
  refine ⟨fun info kind out p h1 h2 =>
    probe_kind_libdir_rule exec config build_config pred windows info kind out p h1 h2, ?_⟩
  unfold probe_target_info at hok
  rcases hreq : build_config.requested_target with _ | t0 <;> rw [hreq] at hok
  · split at hok
    · split at hok
      · cases hok
      · rename_i info hp
        cases hok
        exact ⟨fun p hl => probe_kind_libdir_rule exec config build_config pred windows
            TargetInfo.initial Kind.Target info p hp hl,
          fun t ht => absurd ht (by simp),
          fun _ => rfl⟩
    · rename_i h
      exact absurd rfl h
  · split at hok
    · rename_i hbeq
      split at hok
      · cases hok
      · rename_i info hp
        cases hok
        refine ⟨fun p hl => probe_kind_libdir_rule exec config build_config pred windows
            TargetInfo.initial Kind.Target info p hp hl, ?_, fun _ => rfl⟩
        intro t ht hne
        have ht0 : t = t0 := by
          injection ht with h3
          exact h3.symm
        have hb : (t0 == rustc_host) = true := hbeq
        subst ht0
        rw [hb] at hne
        cases hne
    · rename_i hbeq
      split at hok
      · cases hok
      · rename_i hi hpHost
        split at hok
        · cases hok
        · rename_i ti hpTarget
          cases hok
          refine ⟨fun p hl => probe_kind_libdir_rule exec config build_config pred windows
              TargetInfo.initial Kind.Target ti p hpTarget hl,
            fun t ht hne p hl => probe_kind_libdir_rule exec config build_config pred windows
              TargetInfo.initial Kind.Host hi p hpHost hl, ?_⟩
          intro hsame
          have hb : ¬ (t0 == rustc_host) = true := hbeq
          rcases hsame with h | h
          · exact absurd h (by simp)
          · have h4 : t0 = rustc_host := by
              injection h with h3
            rw [h4] at hb
            simp at hb

/-- Counterexample to C6 as stated: in a successfully constructed
context with no requested target (host and effective target triples
identical), the combined query succeeded, yet the stored host_info
carries the Kind.Target probe directory sysroot/lib/rustlib/HT/lib and
not the Host-rule directory sysroot/lib (nor sysroot/bin), because
host_info is the Kind.Target probe result. -/
theorem C6_counterexample_host_info_not_host_rule :
    probe_target_info execProbe cfgNone bcSame predTrue false "HT" = .ok rSame ∧
      rSame.host_info.sysroot_libdir = some ["SYS", "lib", "rustlib", "HT", "lib"] ∧
      rSame.host_info.sysroot_libdir ≠ some ["SYS", "lib"] ∧
      rSame.host_info.sysroot_libdir ≠ some ["SYS", "bin"] :=
  ⟨rfl, rfl, by decide, by decide⟩

/-- Witness for the amended C6: at concrete probes, the same-triple
construction stores the Kind.Target result as host_info, the stored
target directory follows the Target rule, and under a distinct
requested triple the stored host directory follows the Host rule. -/
theorem C6_sysroot_libdir_rules_witness :
    (rSame.host_info = rSame.target_info) ∧
      (∃ sys, ["SYS", "lib", "rustlib", "HT", "lib"]
        = sys :: libdir_suffix bcSame false Kind.Target) ∧
      (∃ sys, ["SYS", "lib"] = sys :: libdir_suffix bcDiff false Kind.Host) :=
  ⟨(C6_sysroot_libdir_rules execProbe cfgNone bcSame predTrue false "HT" rSame rfl).2.2.2
      (Or.inl rfl),
    (C6_sysroot_libdir_rules execProbe cfgNone bcSame predTrue false "HT" rSame rfl).2.1
      ["SYS", "lib", "rustlib", "HT", "lib"] rfl,
    (C6_sysroot_libdir_rules execProbe cfgNone bcDiff predTrue false "HT" rDiff rfl).2.2.1
      "TT" rfl (by decide) ["SYS", "lib"] rfl⟩

/-- The start node of a reachability path is not avoided. -/
theorem ReachVia.start_not_avoid {U : Type} {g : PluginGraph U} {av : U × Bool → Prop}
    {p q : U × Bool} {n : Nat} (h : ReachVia g av p q n) : ¬ av p := by
  cases h with
  | refl _ hp => exact hp
  | step _ _ _ _ hp _ _ => exact hp

/-- Reachability is invariant under pointwise-equivalent avoid
predicates. -/
theorem ReachVia.congr_avoid {U : Type} {g : PluginGraph U} {av av2 : U × Bool → Prop}
    (hiff : ∀ x, av x ↔ av2 x) {p q : U × Bool} {n : Nat} (h : ReachVia g av p q n) :
    ReachVia g av2 p q n := by
  induction h with
  | refl p hp => exact .refl p (fun c => hp ((hiff p).2 c))
  | step p x r n hp hx ht ih => exact .step p x r n (fun c => hp ((hiff p).2 c)) hx ih

/-- A path avoiding a larger predicate also avoids a smaller one. -/
theorem ReachVia.weaken {U : Type} {g : PluginGraph U} {av av2 : U × Bool → Prop}
    (hsub : ∀ x, av2 x → av x) {p q : U × Bool} {n : Nat} (h : ReachVia g av p q n) :
    ReachVia g av2 p q n := by
  induction h with
  | refl p hp => exact .refl p (fun c => hp (hsub p c))
  | step p x r n hp hx ht ih => exact .step p x r n (fun c => hp (hsub p c)) hx ih

/-- Transitivity of reachability with a fixed avoid predicate. -/
theorem ReachPlugin.trans {U : Type} {g : PluginGraph U} {av : U × Bool → Prop}
    {p q r : U × Bool} (h1 : ReachPlugin g av p q) (h2 : ReachPlugin g av q r) :
    ReachPlugin g av p r := by
  obtain ⟨n, h1⟩ := h1
  obtain ⟨m, h2⟩ := h2
  induction h1 with
  | refl p hp => exact ⟨m, h2⟩
  | step p x q k hp hx ht ih =>
    obtain ⟨j, hj⟩ := ih h2
    exact ⟨j + 1, .step p x r j hp hx hj⟩

/-- Splitting a path at an arbitrary node set: either the path avoids
the set entirely, or it meets the set at a node from which the target
remains reachable along a path no longer than the original. -/
theorem reachVia_split {U : Type} {g : PluginGraph U} {av : U × Bool → Prop}
    (A : U × Bool → Prop) {p q : U × Bool} {n : Nat} (h : ReachVia g av p q n) :
    ReachVia g (fun x => av x ∨ A x) p q n ∨
      ∃ z, A z ∧ ∃ m, m ≤ n ∧ ReachVia g av z q m := by
  induction h with
  | refl p hp =>
    by_cases hA : A p
    · exact Or.inr ⟨p, hA, 0, Nat.le_refl 0, .refl p hp⟩
    · exact Or.inl (.refl p (fun c => c.elim hp hA))
  | step p x q k hp hx ht ih =>
    by_cases hA : A p
    · exact Or.inr ⟨p, hA, k + 1, Nat.le_refl _, .step p x q k hp hx ht⟩
    · rcases ih with h1 | ⟨z, hz, m, hm, hv⟩
      · exact Or.inl (.step p x q k (fun c => c.elim hp hA) hx h1)
      · exact Or.inr ⟨z, hz, m, Nat.le_succ_of_le hm, hv⟩

/-- A reachability path decomposes at its head: the target is the start
itself, or it is reached from a successor of the start along a path
that additionally avoids the start. -/
theorem reachVia_head_step {U : Type} {g : PluginGraph U} {av : U × Bool → Prop} :
    ∀ n : Nat, ∀ {p q : U × Bool}, ReachVia g av p q n →
      q = p ∨ ∃ x, x ∈ succsP g p ∧ ReachPlugin g (fun y => av y ∨ y = p) x q := by
  intro n
  induction n using Nat.strong_induction_on with
  | _ n ih =>
    intro p q h
    cases h with
    | refl _ hp => exact Or.inl rfl
    | step _ x _ k hp hx ht =>
      rcases reachVia_split (fun y => y = p) ht with h1 | ⟨z, hz, m, hm, hv⟩
      · exact Or.inr ⟨x, hx, k, h1⟩
      · subst hz
        exact ih m (Nat.lt_succ_of_le hm) hv

/-- The converse direction of the head decomposition. -/
theorem reachPlugin_of_head {U : Type} {g : PluginGraph U} {av : U × Bool → Prop}
    {p q : U × Bool} (hp : ¬ av p)
    (h : q = p ∨ ∃ x, x ∈ succsP g p ∧ ReachPlugin g (fun y => av y ∨ y = p) x q) :
    ReachPlugin g av p q := by
  rcases h with rfl | ⟨x, hx, m, hv⟩
  · exact ⟨0, .refl q hp⟩
  · exact ⟨m + 1, .step p x q m hp hx (hv.weaken (fun y hy => Or.inl hy))⟩

/-- The head decomposition as an equivalence. -/
theorem reachPlugin_head_iff {U : Type} {g : PluginGraph U} {av : U × Bool → Prop}
    {p q : U × Bool} (hp : ¬ av p) :
    ReachPlugin g av p q ↔
      (q = p ∨ ∃ x, x ∈ succsP g p ∧ ReachPlugin g (fun y => av y ∨ y = p) x q) := by
  constructor
  · rintro ⟨n, h⟩
    exact reachVia_head_step n h
  · exact reachPlugin_of_head hp

/-- Absorption: walks launched after an earlier walk may additionally
avoid everything the earlier walk visited without changing the combined
reachable set, because any path that meets the earlier visited region
is absorbed into the earlier reachability disjunct. -/
theorem reach_absorb {U : Type} {g : PluginGraph U} {v v1 : Finset (U × Bool)}
    {s1 : U × Bool}
    (hv1 : ∀ z, z ∈ v1 ↔ z ∈ v ∨ ReachPlugin g (· ∈ v) s1 z)
    {α : Type} (st : α → U × Bool) (rs : List α) (q : U × Bool) :
    (ReachPlugin g (· ∈ v) s1 q ∨ ∃ r0 ∈ rs, ReachPlugin g (· ∈ v1) (st r0) q) ↔
      (ReachPlugin g (· ∈ v) s1 q ∨ ∃ r0 ∈ rs, ReachPlugin g (· ∈ v) (st r0) q) := by
  constructor
  · rintro (h | ⟨r0, hr, n, hv⟩)
    · exact Or.inl h
    · exact Or.inr ⟨r0, hr, n, hv.weaken (fun y hy => (hv1 y).2 (Or.inl hy))⟩
  · rintro (h | ⟨r0, hr, n, hv⟩)
    · exact Or.inl h
    · rcases reachVia_split (fun z => ReachPlugin g (· ∈ v) s1 z) hv with
        h1 | ⟨z, hz, m, hm, hv2⟩
      · exact Or.inr ⟨r0, hr, n, h1.congr_avoid (fun y => (hv1 y).symm)⟩
      · exact Or.inl (hz.trans ⟨m, hv2⟩)

/-- The head decomposition of the walk relation in terms of the
dependency list and the inserted visited node. -/
theorem walk_head_iff {U : Type} [DecidableEq U] {g : PluginGraph U}
    {v : Finset (U × Bool)} {u : U} {b : Bool} (hmem : (u, b) ∉ v) (q : U × Bool) :
    ReachPlugin g (· ∈ v) (u, b) q ↔
      (q = (u, b) ∨ ∃ d ∈ g.deps u,
        ReachPlugin g (· ∈ insert (u, b) v) (d, b || g.for_host d) q) := by
  rw [reachPlugin_head_iff hmem]
  constructor
  · rintro (rfl | ⟨x, hx, hreach⟩)
    · exact Or.inl rfl
    · rcases List.mem_map.1 hx with ⟨d, hd, rfl⟩
      obtain ⟨n, hvia⟩ := hreach
      exact Or.inr ⟨d, hd, n,
        hvia.congr_avoid (fun y => by simp [Finset.mem_insert, or_comm])⟩
  · rintro (rfl | ⟨d, hd, hreach⟩)
    · exact Or.inl rfl
    · obtain ⟨n, hvia⟩ := hreach
      refine Or.inr ⟨(d, b || g.for_host d), List.mem_map.2 ⟨d, hd, rfl⟩, n,
        hvia.congr_avoid (fun y => by simp [Finset.mem_insert, or_comm])⟩

/-- Characterization of the walk with sufficient fuel: the visited set
grows by exactly the nodes reachable from the start avoiding the
initial visited set, and the used_in_plugin set grows by exactly the
units reachable at a true accumulated flag.  Sufficient fuel means more
fuel than there are unvisited (unit, flag) pairs, which is the
situation of every call the source performs because its visited set
blocks re-entry. -/
theorem walk_char {U : Type} [DecidableEq U] [Fintype U] (g : PluginGraph U) :
    ∀ n : Nat,
      (∀ (u : U) (b : Bool) (v : Finset (U × Bool)) (us : Finset U),
        Fintype.card (U × Bool) + 1 ≤ n + v.card →
        (∀ q, q ∈ (walk_used_in_plugin g n u b v us).1 ↔
            q ∈ v ∨ ReachPlugin g (· ∈ v) (u, b) q) ∧
        (∀ x, x ∈ (walk_used_in_plugin g n u b v us).2 ↔
            x ∈ us ∨ ReachPlugin g (· ∈ v) (u, b) (x, true))) ∧
      (∀ (ds : List U) (b : Bool) (v : Finset (U × Bool)) (us : Finset U),
        Fintype.card (U × Bool) + 1 ≤ n + v.card →
        (∀ q, q ∈ (walk_deps g n ds b v us).1 ↔
            q ∈ v ∨ ∃ d ∈ ds, ReachPlugin g (· ∈ v) (d, b || g.for_host d) q) ∧
        (∀ x, x ∈ (walk_deps g n ds b v us).2 ↔
            x ∈ us ∨ ∃ d ∈ ds, ReachPlugin g (· ∈ v) (d, b || g.for_host d) (x, true))) := by
  intro n
  induction n with
  | zero =>
    constructor
    · intro u b v us hfuel
      exfalso
      have h1 := Finset.card_le_univ v
      omega
    · intro ds b v us hfuel
      exfalso
      have h1 := Finset.card_le_univ v
      omega
  | succ n ih =>
    have Pn1 : ∀ (u : U) (b : Bool) (v : Finset (U × Bool)) (us : Finset U),
        Fintype.card (U × Bool) + 1 ≤ (n + 1) + v.card →
        (∀ q, q ∈ (walk_used_in_plugin g (n + 1) u b v us).1 ↔
            q ∈ v ∨ ReachPlugin g (· ∈ v) (u, b) q) ∧
        (∀ x, x ∈ (walk_used_in_plugin g (n + 1) u b v us).2 ↔
            x ∈ us ∨ ReachPlugin g (· ∈ v) (u, b) (x, true)) := by
      intro u b v us hfuel
      by_cases hmem : (u, b) ∈ v
      · have heq : walk_used_in_plugin g (n + 1) u b v us = (v, us) := by
          simp [walk_used_in_plugin, hmem]
        rw [heq]
        constructor
        · intro q
          constructor
          · exact Or.inl
          · rintro (hq | ⟨k, hvia⟩)
            · exact hq
            · exact absurd hmem hvia.start_not_avoid
        · intro x
          constructor
          · exact Or.inl
          · rintro (hx | ⟨k, hvia⟩)
            · exact hx
            · exact absurd hmem hvia.start_not_avoid
      · have heq : walk_used_in_plugin g (n + 1) u b v us
            = walk_deps g n (g.deps u) b (insert (u, b) v)
                (if b then insert u us else us) := by
          simp [walk_used_in_plugin, hmem]
        have hins : (insert (u, b) v).card = v.card + 1 :=
          Finset.card_insert_of_not_mem hmem
        have hfuel2 : Fintype.card (U × Bool) + 1 ≤ n + (insert (u, b) v).card := by
          omega
        obtain ⟨hvis, huse⟩ := ih.2 (g.deps u) b (insert (u, b) v)
          (if b then insert u us else us) hfuel2
        rw [heq]
        constructor
        · intro q
          rw [hvis q, walk_head_iff hmem q, Finset.mem_insert]
          tauto
        · intro x
          rw [huse x, walk_head_iff hmem (x, true)]
          cases b
          · simp only [if_false, Bool.false_eq_true, Prod.mk.injEq]
            tauto
          · simp only [if_true, Finset.mem_insert, Prod.mk.injEq, and_true]
            tauto
    refine ⟨Pn1, ?_⟩
    intro ds
    induction ds with
    | nil =>
      intro b v us hfuel
      constructor
      · intro q
        simp [walk_deps]
      · intro x
        simp [walk_deps]
    | cons d1 ds2 ih2 =>
      intro b v us hfuel
      obtain ⟨hv1, hu1⟩ := Pn1 d1 (b || g.for_host d1) v us hfuel
      have hsubv : v ⊆ (walk_used_in_plugin g (n + 1) d1 (b || g.for_host d1) v us).1 :=
        fun z hz => (hv1 z).2 (Or.inl hz)
      have hfuel2 : Fintype.card (U × Bool) + 1
          ≤ (n + 1) + (walk_used_in_plugin g (n + 1) d1 (b || g.for_host d1) v us).1.card := by
        have h2 := Finset.card_le_card hsubv
        omega
      obtain ⟨hv2, hu2⟩ := ih2 b
        (walk_used_in_plugin g (n + 1) d1 (b || g.for_host d1) v us).1
        (walk_used_in_plugin g (n + 1) d1 (b || g.for_host d1) v us).2 hfuel2
      have hstep : walk_deps g (n + 1) (d1 :: ds2) b v us
          = walk_deps g (n + 1) ds2 b
              (walk_used_in_plugin g (n + 1) d1 (b || g.for_host d1) v us).1
              (walk_used_in_plugin g (n + 1) d1 (b || g.for_host d1) v us).2 := by
        simp [walk_deps]
      rw [hstep]
      have habs := fun q => reach_absorb hv1 (fun d : U => (d, b || g.for_host d)) ds2 q
      constructor
      · intro q
        rw [hv2 q, hv1 q, or_assoc, habs q]
        simp only [List.mem_cons, exists_eq_or_imp]
      · intro x
        rw [hu2 x, hu1 x, or_assoc, habs (x, true)]
        simp only [List.mem_cons, exists_eq_or_imp]

/-- Characterization of the root loop of build_used_in_plugin_map. -/
theorem walk_roots_char {U : Type} [DecidableEq U] [Fintype U] (g : PluginGraph U) :
    ∀ (rs : List U) (v : Finset (U × Bool)) (us : Finset U),
      (∀ q, q ∈ (walk_roots g rs v us).1 ↔
          q ∈ v ∨ ∃ r0 ∈ rs, ReachPlugin g (· ∈ v) (r0, g.for_host r0) q) ∧
      (∀ x, x ∈ (walk_roots g rs v us).2 ↔
          x ∈ us ∨ ∃ r0 ∈ rs, ReachPlugin g (· ∈ v) (r0, g.for_host r0) (x, true)) := by
  intro rs
  induction rs with
  | nil =>
    intro v us
    constructor
    · intro q
      simp [walk_roots]
    · intro x
      simp [walk_roots]
  | cons r1 rs2 ih =>
    intro v us
    have hfuel : Fintype.card (U × Bool) + 1 ≤ (Fintype.card (U × Bool) + 1) + v.card :=
      Nat.le_add_right _ _
    obtain ⟨hv1, hu1⟩ :=
      (walk_char g (Fintype.card (U × Bool) + 1)).1 r1 (g.for_host r1) v us hfuel
    obtain ⟨hv2, hu2⟩ := ih
      (walk_used_in_plugin g (Fintype.card (U × Bool) + 1) r1 (g.for_host r1) v us).1
      (walk_used_in_plugin g (Fintype.card (U × Bool) + 1) r1 (g.for_host r1) v us).2
    have hstep : walk_roots g (r1 :: rs2) v us
        = walk_roots g rs2
            (walk_used_in_plugin g (Fintype.card (U × Bool) + 1) r1 (g.for_host r1) v us).1
            (walk_used_in_plugin g (Fintype.card (U × Bool) + 1) r1 (g.for_host r1) v us).2 := by
      simp [walk_roots]
    rw [hstep]
    have habs := fun q => reach_absorb hv1 (fun r0 : U => (r0, g.for_host r0)) rs2 q
    constructor
    · intro q
      rw [hv2 q, hv1 q, or_assoc, habs q]
      simp only [List.mem_cons, exists_eq_or_imp]
    · intro x
      rw [hu2 x, hu1 x, or_assoc, habs (x, true)]
      simp only [List.mem_cons, exists_eq_or_imp]

/-- C9: build_used_in_plugin_map only ever inserts into the
used_in_plugin set, so membership grows monotonically across repeated
calls; a unit is a member exactly when it was one before or is
reachable from some root of the walked list through the product walk
space with a true accumulated flag (the root flag ORed with the
for_host flag of every traversed dependency); and the resulting set is
unchanged under any permutation of the root list, so it does not
depend on visitation order. -/
theorem C9_used_in_plugin_monotone_reachable {U : Type} [DecidableEq U] [Fintype U]
    (g : PluginGraph U) (roots roots2 : List U) (used0 : Finset U)
    (hperm : roots.Perm roots2) :
    used0 ⊆ build_used_in_plugin_map g roots used0 ∧
      (∀ x, x ∈ build_used_in_plugin_map g roots used0 ↔
        x ∈ used0 ∨ ∃ r ∈ roots,
          ReachPlugin g (fun _ => False) (r, g.for_host r) (x, true)) ∧
      build_used_in_plugin_map g roots used0 = build_used_in_plugin_map g roots2 used0 := by
  have hchar : ∀ (rs : List U) (x : U), x ∈ build_used_in_plugin_map g rs used0 ↔
      x ∈ used0 ∨ ∃ r ∈ rs, ReachPlugin g (fun _ => False) (r, g.for_host r) (x, true) := by
    intro rs x
    rw [show build_used_in_plugin_map g rs used0 = (walk_roots g rs ∅ used0).2 from rfl]
    rw [(walk_roots_char g rs ∅ used0).2 x]
    constructor
    · rintro (h0 | ⟨r, hr, n, hvia⟩)
      · exact Or.inl h0
      · exact Or.inr ⟨r, hr, n, hvia.congr_avoid (fun y => by simp)⟩
    · rintro (h0 | ⟨r, hr, n, hvia⟩)
      · exact Or.inl h0
      · exact Or.inr ⟨r, hr, n, hvia.congr_avoid (fun y => by simp)⟩
  refine ⟨?_, hchar roots, ?_⟩
  · intro x hx
    exact (hchar roots x).2 (Or.inl hx)
  · apply Finset.ext
    intro x
    rw [hchar roots x, hchar roots2 x]
    constructor
    · rintro (h0 | ⟨r, hr, hre⟩)
      · exact Or.inl h0
      · exact Or.inr ⟨r, hperm.mem_iff.1 hr, hre⟩
    · rintro (h0 | ⟨r, hr, hre⟩)
      · exact Or.inl h0
      · exact Or.inr ⟨r, hperm.mem_iff.2 hr, hre⟩

/-- Witness for C9 at the concrete graph, with two root lists that are
permutations of each other. -/
theorem C9_used_in_plugin_monotone_reachable_witness :
    (∅ : Finset Bool) ⊆ build_used_in_plugin_map gW [false, true] ∅ ∧
      (∀ x, x ∈ build_used_in_plugin_map gW [false, true] ∅ ↔
        x ∈ (∅ : Finset Bool) ∨ ∃ r ∈ [false, true],
          ReachPlugin gW (fun _ => False) (r, gW.for_host r) (x, true)) ∧
      build_used_in_plugin_map gW [false, true] ∅
        = build_used_in_plugin_map gW [true, false] ∅ :=
  C9_used_in_plugin_monotone_reachable gW [false, true] [true, false] ∅ (by decide)
